import Mathlib

/-!
Shallow embedding of `article_parser.py` (markdown article → slide plan) and
proofs of the specification claims about it. Text is modelled as `List Char`;
the Python string operations and the specific regular expressions the parser
compiles are implemented directly over character lists.
-/

namespace ArticleParser

/-- Python whitespace, as recognised by `str.strip`, `str.split()` and the
regex class `\s` (for the ASCII inputs handled here). -/
def pyIsSpace (c : Char) : Bool :=
  c = ' ' || c = '\t' || c = '\n' || c = '\r' || c = '\x0b' || c = '\x0c'

/-- Python `str.strip()`: remove leading and trailing whitespace. -/
def pyStrip (l : List Char) : List Char :=
  ((l.dropWhile pyIsSpace).reverse.dropWhile pyIsSpace).reverse

/-- Python `s.split(sep)` for a one-character separator: pieces between
occurrences, keeping empty pieces; the empty text gives one empty piece. -/
def splitOnCharAux (sep : Char) : List Char → List Char → List (List Char)
  | [], acc => [acc.reverse]
  | c :: cs, acc =>
    if c = sep then acc.reverse :: splitOnCharAux sep cs []
    else splitOnCharAux sep cs (c :: acc)

def splitOnChar (sep : Char) (l : List Char) : List (List Char) :=
  splitOnCharAux sep l []

/-- Newline split, as in `_extract_sections` and `CodeBlock.__post_init__`. -/
def splitLines (l : List Char) : List (List Char) :=
  splitOnChar '\n' l

/-- Python `str.split()` with no argument: maximal runs of non-whitespace
characters, empty pieces dropped. -/
def pySplitWhitespaceAux : List Char → List Char → List (List Char)
  | [], acc => if acc.isEmpty then [] else [acc.reverse]
  | c :: cs, acc =>
    if pyIsSpace c then
      if acc.isEmpty then pySplitWhitespaceAux cs []
      else acc.reverse :: pySplitWhitespaceAux cs []
    else pySplitWhitespaceAux cs (c :: acc)

def pySplitWhitespace (l : List Char) : List (List Char) :=
  pySplitWhitespaceAux l []

/-- Characters of the sentence-terminator class used by the regex split on
runs of `.`, `!`, `?`. -/
def isSentTerm (c : Char) : Bool := c = '.' || c = '!' || c = '?'

/-- Regex split on runs of sentence terminators, keeping the (possibly empty)
pieces between runs; `inRun` records whether the previous character was part
of a terminator run. -/
def reSplitTermAux : List Char → Bool → List Char → List (List Char)
  | [], _, acc => [acc.reverse]
  | c :: cs, inRun, acc =>
    if isSentTerm c then
      if inRun then reSplitTermAux cs true acc
      else acc.reverse :: reSplitTermAux cs true []
    else reSplitTermAux cs false (c :: acc)

/-- Sentence list shared by `_get_context` and `_condense_text`: regex split
of the stripped text on terminator runs, then strip each piece and keep the
nonempty ones (the source filters on truthiness of the stripped piece, which
is the same thing). -/
def splitSentences (text : List Char) : List (List Char) :=
  ((reSplitTermAux (pyStrip text) false []).map pyStrip).filter (fun s => !s.isEmpty)

/-- Loop of `_condense_text`: greedily append sentences (each followed by a
period and a space) while the running word count stays at or under the cap;
the first sentence that would exceed it stops the loop. Returns the
accumulated text together with the final word count. -/
def condenseLoop (maxWords : Nat) : List (List Char) → List Char → Nat → List Char × Nat
  | [], condensed, wc => (condensed, wc)
  | s :: rest, condensed, wc =>
    let words := (pySplitWhitespace s).length
    if wc + words ≤ maxWords then
      condenseLoop maxWords rest (condensed ++ s ++ ('.' :: ' ' :: [])) (wc + words)
    else (condensed, wc)

/-- Embedding of `_condense_text`: after the loop, three dots are appended
when the final word count exceeds the cap, and the result is stripped. -/
def condenseText (text : List Char) (maxWords : Nat) : List Char :=
  let p := condenseLoop maxWords (splitSentences text) [] 0
  let condensed := if p.2 > maxWords then p.1 ++ ('.' :: '.' :: '.' :: []) else p.1
  pyStrip condensed

/-- Leading characters accepted by the list-item regex. -/
def isListMarker (c : Char) : Bool := c = '*' || c = '-' || c = '+'

/-- Match of the multiline list-item regex at a line-start position of the
text: a marker, then the greedy whitespace run, which may span newlines.
When a character follows the run it is not whitespace, so the dot-plus
capture is the rest of that character's line and the match ends before its
newline. When the run reaches the end of the text, backtracking hands the
dot-plus the last whitespace character of the run that is not a newline,
provided it is not the run's first character; the newlines after that
character stay unconsumed. Returns the capture and the text after the
match. -/
def bulletMatchAt (l : List Char) : Option (List Char × List Char) :=
  match l with
  | [] => none
  | c :: rest =>
    if isListMarker c then
      let ws := rest.takeWhile pyIsSpace
      let rem := rest.dropWhile pyIsSpace
      if ws.isEmpty then none
      else
        match rem with
        | _ :: _ =>
          some (rem.takeWhile (fun x => x ≠ '\n'), rem.dropWhile (fun x => x ≠ '\n'))
        | [] =>
          match ((ws.drop 1).reverse).dropWhile (fun x => x = '\n') with
          | w :: _ => some ([w], ((ws.drop 1).reverse).takeWhile (fun x => x = '\n'))
          | [] => none
    else none

/-- Text after the next newline: where the caret next allows a match to
start. -/
def skipLine (l : List Char) : List Char :=
  (l.dropWhile (fun x => x ≠ '\n')).drop 1

/-- finditer of the multiline list-item regex: the caret restricts match
starts to line starts; a line whose start yields no match is skipped whole
(the pattern's first character cannot match mid-line), and scanning resumes
after each match, whose remainder up to its newline holds no caret. Fuel is
the text length, which bounds the one-or-more-character steps. -/
def findBulletCapturesAux : Nat → List Char → List (List Char)
  | 0, _ => []
  | _ + 1, [] => []
  | fuel + 1, l =>
    match bulletMatchAt l with
    | some (cap, rest) => cap :: findBulletCapturesAux fuel (skipLine rest)
    | none => findBulletCapturesAux fuel (skipLine l)

/-- Embedding of `_extract_bullet_points`: captures of the list regex in
order of appearance, stripped, first `maxBullets` of them. -/
def extractBulletPoints (text : List Char) (maxBullets : Nat) : List (List Char) :=
  ((findBulletCapturesAux text.length text).map pyStrip).take maxBullets

/-- Match of the heading regex against one line: one to six hash marks, at
least one whitespace character, then the captured heading text. A run of more
than six leading hashes never matches, since every shortened hash match is
still followed by a hash. The degenerate all-whitespace capture mirrors the
backtracking of the whitespace quantifier. -/
def headingMatch (line : List Char) : Option (Nat × List Char) :=
  let hashes := line.takeWhile (fun c => c = '#')
  let rest := line.dropWhile (fun c => c = '#')
  if hashes.isEmpty || 6 < hashes.length then none
  else
    let ws := rest.takeWhile pyIsSpace
    let rem := rest.dropWhile pyIsSpace
    if ws.isEmpty then none
    else if rem.isEmpty then
      if 2 ≤ ws.length then some (hashes.length, ws.drop (ws.length - 1)) else none
    else some (hashes.length, rem)

/-- Embedding of the `CodeBlock` dataclass. -/
structure CodeBlock where
  language : List Char
  code : List Char
  context_before : List Char
  context_after : List Char
  line_count : Nat
deriving Repr, DecidableEq

/-- Construction of a `CodeBlock` followed by `__post_init__`, which derives
`line_count` from the stripped code text. -/
def mkCodeBlock (language code context_before context_after : List Char) : CodeBlock :=
  { language := language, code := code, context_before := context_before,
    context_after := context_after,
    line_count := (splitLines (pyStrip code)).length }

/-- Embedding of the `ImageReference` dataclass; `caption` keeps its default
at extraction time. -/
structure ImageReference where
  alt_text : List Char
  file_path : List Char
  caption : List Char
  is_diagram : Bool
deriving Repr, DecidableEq

/-- Embedding of the `Section` dataclass; `subsections` makes this a nested
inductive, so the field accessors are defined by hand below. The
`__post_init__` defaults (empty subsections, code blocks, images) are
supplied at each construction site, as in the source. -/
inductive Section where
  | mk (heading : List Char) (level : Nat) (content : List Char)
      (subsections : List Section) (code_blocks : List CodeBlock)
      (images : List ImageReference)

def Section.heading : Section → List Char
  | .mk h _ _ _ _ _ => h

def Section.level : Section → Nat
  | .mk _ lv _ _ _ _ => lv

def Section.content : Section → List Char
  | .mk _ _ c _ _ _ => c

def Section.subsections : Section → List Section
  | .mk _ _ _ subs _ _ => subs

def Section.code_blocks : Section → List CodeBlock
  | .mk _ _ _ _ cbs _ => cbs

def Section.images : Section → List ImageReference
  | .mk _ _ _ _ _ imgs => imgs

/-- Appending one body line plus a newline to the open section's content. -/
def Section.addContentLine : Section → List Char → Section
  | .mk h lv c subs cbs imgs, line => .mk h lv (c ++ line ++ ['\n']) subs cbs imgs

/-- Appending a freshly built subsection to the open section. -/
def Section.addSubsection : Section → Section → Section
  | .mk h lv c subs cbs imgs, sub => .mk h lv c (subs ++ [sub]) cbs imgs

/-- Pushing the open section onto the result list, as happens at a new
level-2 heading and at the end of the line loop. -/
def closeSection (sections : List Section) : Option Section → List Section
  | some s => sections ++ [s]
  | none => sections

/-- Line loop of `_extract_sections`: a level-2 heading closes the open
section and opens a new one; a level-3 heading becomes a subsection of the
open section, if any; any other heading line falls through both branches of
the matched case; a non-heading line is appended to the open section's
content. -/
def extractSectionsAux : List (List Char) → List Section → Option Section → List Section
  | [], sections, cur => closeSection sections cur
  | line :: rest, sections, cur =>
    match headingMatch line with
    | some (level, heading) =>
      if level = 2 then
        extractSectionsAux rest (closeSection sections cur)
          (some (Section.mk heading level [] [] [] []))
      else if level = 3 then
        match cur with
        | some s =>
          extractSectionsAux rest sections
            (some (s.addSubsection (Section.mk heading level [] [] [] [])))
        | none => extractSectionsAux rest sections none
      else extractSectionsAux rest sections cur
    | none =>
      match cur with
      | some s => extractSectionsAux rest sections (some (s.addContentLine line))
      | none => extractSectionsAux rest sections cur

/-- Embedding of `_extract_sections`. -/
def extractSections (content : List Char) : List Section :=
  extractSectionsAux (splitLines content) [] none

/-- The fence character, by code point. -/
def backtick : Char := '\x60'

/-- Whether the text starts with a backtick triple. -/
def startsWithFence : List Char → Bool
  | a :: b :: c :: _ => a = backtick && b = backtick && c = backtick
  | _ => false

/-- Word characters of the regex class `\w` for the ASCII inputs handled
here. -/
def isWordChar (c : Char) : Bool := c.isAlphanum || c = '_'

/-- Lazy close of the code-block body: the non-greedy body ends at the first
occurrence of a backtick triple; returns the body and the text after the
triple. -/
def findLazyClose : List Char → Option (List Char × List Char)
  | [] => none
  | c :: cs =>
    if startsWithFence (c :: cs) then some ([], (c :: cs).drop 3)
    else
      match findLazyClose cs with
      | some (body, rest) => some (c :: body, rest)
      | none => none

/-- Attempt of the code-block pattern at the current position: a backtick
triple, then a run of word characters that must be followed by a newline
(shorter runs end at a word character, so backtracking cannot rescue a
failed attempt), then the lazily matched body up to the closing triple. -/
def matchCodeAt (l : List Char) : Option (List Char × List Char × List Char) :=
  if startsWithFence l then
    let after := l.drop 3
    let lang := after.takeWhile isWordChar
    match after.dropWhile isWordChar with
    | '\n' :: body0 =>
      match findLazyClose body0 with
      | some (body, rest) => some (lang, body, rest)
      | none => none
    | _ => none
  else none

/-- One match record of the code-block scan: the text before the match, the
two captured groups, and the text after the match. -/
structure CodeMatch where
  before : List Char
  lang : List Char
  body : List Char
  after : List Char
deriving Repr, DecidableEq

/-- Iterated leftmost matching of the code-block pattern: scanning advances
one character on failure and resumes after each match; fuel is the input
length, which bounds the number of one-character steps. -/
def findCodeMatchesAux : Nat → List Char → List Char → List CodeMatch
  | 0, _, _ => []
  | _ + 1, _, [] => []
  | fuel + 1, pre, c :: cs =>
    match matchCodeAt (c :: cs) with
    | some (lang, body, rest) =>
      let consumed := (c :: cs).take ((c :: cs).length - rest.length)
      { before := pre, lang := lang, body := body, after := rest }
        :: findCodeMatchesAux fuel (pre ++ consumed) rest
    | none => findCodeMatchesAux fuel (pre ++ [c]) cs

def findCodeMatches (content : List Char) : List CodeMatch :=
  findCodeMatchesAux content.length [] content

/-- Python slice `sentences[-n:]`; Python yields the whole list when n = 0. -/
def lastSlice (n : Nat) (l : List (List Char)) : List (List Char) :=
  if n = 0 then l else l.drop (l.length - n)

/-- Embedding of `_get_context`: the last `numSentences` sentences, joined by
a period and a space, stripped and truncated to 200 characters. -/
def getContext (text : List Char) (numSentences : Nat) : List Char :=
  let sentences := splitSentences text
  if sentences.isEmpty then []
  else (pyStrip (List.intercalate ('.' :: ' ' :: []) (lastSlice numSentences sentences))).take 200

/-- Embedding of `_extract_code_blocks`: an empty language tag falls back to
"text"; the code is the stripped body; the contexts take two sentences from
the text before and after the match. -/
def extractCodeBlocks (content : List Char) : List CodeBlock :=
  (findCodeMatches content).map fun m =>
    mkCodeBlock
      (if m.lang.isEmpty then "text".toList else m.lang)
      (pyStrip m.body)
      (getContext m.before 2)
      (getContext m.after 2)

/-- Attempt of the image pattern at the current position: a bang, an alt text
of non-bracket characters in square brackets, then a nonempty path of
non-parenthesis characters in parentheses. -/
def matchImageAt (l : List Char) : Option (List Char × List Char × List Char) :=
  match l with
  | '!' :: '[' :: rest =>
    let alt := rest.takeWhile (fun c => c ≠ ']')
    match rest.dropWhile (fun c => c ≠ ']') with
    | ']' :: '(' :: rest2 =>
      let path := rest2.takeWhile (fun c => c ≠ ')')
      if path.isEmpty then none
      else
        match rest2.dropWhile (fun c => c ≠ ')') with
        | ')' :: rest3 => some (alt, path, rest3)
        | _ => none
    | _ => none
  | _ => none

/-- Iterated leftmost matching of the image pattern, as for code blocks. -/
def findImageMatchesAux : Nat → List Char → List (List Char × List Char)
  | 0, _ => []
  | _ + 1, [] => []
  | fuel + 1, c :: cs =>
    match matchImageAt (c :: cs) with
    | some (alt, path, rest) => (alt, path) :: findImageMatchesAux fuel rest
    | none => findImageMatchesAux fuel cs

/-- Python `str.lower` for the ASCII texts handled here. -/
def pyLower (l : List Char) : List Char := l.map Char.toLower

/-- Python substring containment, needle in haystack. -/
def containsSub (needle haystack : List Char) : Bool :=
  match haystack with
  | [] => needle.isEmpty
  | _ :: tail => needle.isPrefixOf haystack || containsSub needle tail

/-- Embedding of `_extract_images`. -/
def extractImages (content : List Char) : List ImageReference :=
  (findImageMatchesAux content.length content).map fun m =>
    { alt_text := m.1, file_path := m.2, caption := [],
      is_diagram := containsSub "mermaid".toList (pyLower m.2)
                    || containsSub "plantuml".toList (pyLower m.2) }

/-- Whether the text starts with a newline followed by three dashes. -/
def startsWithNlDashes : List Char → Bool
  | '\n' :: '-' :: '-' :: '-' :: _ => true
  | _ => false

/-- Lazy group of the frontmatter pattern: the body ends at the first
newline-plus-three-dashes; returns the body and the text after the full
match. -/
def findFmClose : List Char → Option (List Char × List Char)
  | [] => none
  | c :: cs =>
    if startsWithNlDashes (c :: cs) then some ([], (c :: cs).drop 4)
    else
      match findFmClose cs with
      | some (body, rest) => some (c :: body, rest)
      | none => none

/-- Search of the frontmatter pattern, anchored by the caret at the start of
the text: three dashes, a newline, the lazy body, a newline, three dashes.
Returns the captured body and the text after the match, which is what the
substitution with the empty string leaves behind. -/
def frontmatterSearch (content : List Char) : Option (List Char × List Char) :=
  match content with
  | '-' :: '-' :: '-' :: '\n' :: rest => findFmClose rest
  | _ => none

/-- Values of the modelled metadata mapping. -/
inductive YamlValue where
  | str (s : List Char)
  | list (items : List (List Char))
deriving Repr, DecidableEq

/-- Modelled from the spec: `yaml.safe_load` is an external library call the
repository sources do not contain. The spec says the metadata body is
"interpreted as a structured key-value mapping" and that malformed metadata
is swallowed. Model of one line: blank lines are skipped; otherwise the line
must be key, colon, value; a bracketed value is a comma-separated list of
strings; a nonempty line without a colon makes the block malformed. -/
def yamlParseLine (line : List Char) : Except Unit (Option (List Char × YamlValue)) :=
  if (pyStrip line).isEmpty then .ok none
  else
    let key := line.takeWhile (fun c => c ≠ ':')
    match line.dropWhile (fun c => c ≠ ':') with
    | ':' :: rest =>
      let v := pyStrip rest
      match v with
      | '[' :: _ =>
        if v.getLast? = some ']' then
          let inner := pyStrip ((v.drop 1).dropLast)
          .ok (some (pyStrip key,
            .list (if inner.isEmpty then [] else (splitOnChar ',' inner).map pyStrip)))
        else .ok (some (pyStrip key, .str v))
      | _ => .ok (some (pyStrip key, .str v))
    | _ => .error ()

/-- Modelled from the spec: the whole metadata body as a key-value mapping,
line by line, failing on the first malformed line. -/
def yamlSafeLoad (body : List Char) : Except Unit (List (List Char × YamlValue)) :=
  (splitLines body).foldlM
    (fun acc line =>
      match yamlParseLine line with
      | .error e => .error e
      | .ok none => .ok acc
      | .ok (some kv) => .ok (acc ++ [kv]))
    []

/-- Whether the modelled loader failed. -/
def yamlFailed (r : Except Unit (List (List Char × YamlValue))) : Bool :=
  match r with
  | .error _ => true
  | .ok _ => false

/-- Embedding of `_extract_frontmatter`: no match, a loader error, or an
empty mapping all yield the empty mapping. -/
def extractFrontmatter (content : List Char) : List (List Char × YamlValue) :=
  match frontmatterSearch content with
  | none => []
  | some (body, _) =>
    match yamlSafeLoad body with
    | .error _ => []
    | .ok fm => fm

/-- Dictionary lookup; a later duplicate key shadows an earlier one, as in
the Python dict the loader builds. -/
def metaLookup (m : List (List Char × YamlValue)) (key : List Char) : Option YamlValue :=
  (m.reverse.find? (fun kv => kv.1 == key)).map Prod.snd

/-- metadata.get for the string-valued keys; the model restricts values to
the string and list shapes named by the spec, and a list value here keeps
the default. -/
def metaGetStr (m : List (List Char × YamlValue)) (key dflt : List Char) : List Char :=
  match metaLookup m key with
  | some (.str s) => s
  | _ => dflt

/-- metadata.get for the tags key, whose default is the empty list. -/
def metaGetTags (m : List (List Char × YamlValue)) : List (List Char) :=
  match metaLookup m "tags".toList with
  | some (.list items) => items
  | _ => []

/-- Embedding of the `ArticleStructure` dataclass. -/
structure ArticleStructure where
  title : List Char
  author : List Char
  date : List Char
  tags : List (List Char)
  sections : List Section
  code_blocks : List CodeBlock
  images : List ImageReference
  raw_content : List Char

/-- Embedding of `ArticleStructure.get_estimated_slide_count`. -/
def getEstimatedSlideCount (a : ArticleStructure) : Nat :=
  let slides := 1
  let h2_sections := a.sections.filter (fun s => s.level == 2)
  let slides := slides + h2_sections.length * 2
  let slides := slides + a.code_blocks.length
  let slides := slides + a.images.length
  slides + 1

/-- Embedding of `parse_content`. -/
def parseContent (content : List Char) : ArticleStructure :=
  let metadata := extractFrontmatter content
  let contentWithoutFm :=
    match frontmatterSearch content with
    | some (_, after) => after
    | none => content
  { title := metaGetStr metadata "title".toList "Untitled".toList,
    author := metaGetStr metadata "author".toList "Unknown".toList,
    date := metaGetStr metadata "date".toList [],
    tags := metaGetTags metadata,
    sections := extractSections contentWithoutFm,
    code_blocks := extractCodeBlocks contentWithoutFm,
    images := extractImages contentWithoutFm,
    raw_content := content }

/-- Payload of one slide dictionary, one shape per value of the slide type
tag. -/
inductive SlidePayload where
  | title (title author date : List Char) (tags : List (List Char))
  | content (heading body : List Char) (bullet_points : List (List Char))
  | code (language codeText context : List Char)
  | visual (alt_text file_path caption : List Char)
  | conclusion (heading : List Char) (takeaways : List (List Char)) (cta : List Char)
deriving Repr, DecidableEq

/-- One slide dictionary of the plan: the type tag, the content payload and
the speaker notes. -/
structure Slide where
  type : List Char
  payload : SlidePayload
  speaker_notes : List Char
deriving Repr, DecidableEq

/-- Title slide of `create_slide_plan`, including its format-string speaker
notes. -/
def titleSlide (a : ArticleStructure) : Slide :=
  { type := "title".toList,
    payload := .title a.title a.author a.date a.tags,
    speaker_notes :=
      "Presenting: ".toList ++ a.title ++ ('\n' :: ("Author: ".toList ++ a.author)) }

/-- Per-section slides of the planner loop: a section whose level is not 2 is
skipped; otherwise its content slide is followed by one slide per
section-scoped code block and one per section-scoped image. -/
def sectionSlides (s : Section) : List Slide :=
  if s.level ≠ 2 then []
  else
    ({ type := "content".toList,
       payload := .content s.heading (condenseText s.content 100)
         (extractBulletPoints s.content 5),
       speaker_notes := s.content.take 500 } : Slide)
    :: ((s.code_blocks.map fun cb =>
          ({ type := "code".toList,
             payload := .code cb.language cb.code cb.context_before,
             speaker_notes :=
               cb.context_before ++ ('\n' :: '\n' :: cb.context_after) } : Slide))
        ++ (s.images.map fun im =>
          ({ type := "visual".toList,
             payload := .visual im.alt_text im.file_path im.caption,
             speaker_notes := im.caption } : Slide)))

/-- Result record of `_extract_conclusion`. -/
structure ConclusionInfo where
  takeaways : List (List Char)
  cta : List Char
  notes : List Char
deriving Repr, DecidableEq

/-- Embedding of `_extract_conclusion`: the first section whose lowered
heading contains "conclusion" supplies the conclusion content; its bullets
are the takeaways, falling back to the bullets of the first section in the
list (or of empty text) when they come up empty. -/
def extractConclusion (a : ArticleStructure) : ConclusionInfo :=
  let conclusionContent :=
    match a.sections.find? (fun s => containsSub "conclusion".toList (pyLower s.heading)) with
    | some s => s.content
    | none => []
  let takeaways := extractBulletPoints conclusionContent 5
  let takeaways :=
    if takeaways.isEmpty then
      extractBulletPoints
        (match a.sections with
         | s :: _ => s.content
         | [] => []) 5
    else takeaways
  { takeaways := takeaways,
    cta := "Check out the full article and code examples".toList,
    notes := conclusionContent.take 500 }

/-- Conclusion slide of `create_slide_plan`. -/
def conclusionSlide (a : ArticleStructure) : Slide :=
  let conclusion := extractConclusion a
  { type := "conclusion".toList,
    payload := .conclusion "Key Takeaways".toList conclusion.takeaways conclusion.cta,
    speaker_notes := conclusion.notes }

/-- Embedding of `create_slide_plan`. -/
def createSlidePlan (a : ArticleStructure) : List Slide :=
  titleSlide a :: ((a.sections.map sectionSlides).flatten ++ [conclusionSlide a])

/-- Greedy close of the code-block body, following the spec's words ("body
matched greedily across lines") instead of the source's non-greedy
quantifier: the body extends to the last occurrence of a backtick triple.
Defined only to compare the spec's reading against the code. -/
def findGreedyClose : List Char → Option (List Char × List Char)
  | [] => none
  | c :: cs =>
    match findGreedyClose cs with
    | some (body, rest) => some (c :: body, rest)
    | none =>
      if startsWithFence (c :: cs) then some ([], (c :: cs).drop 3) else none

/-- Attempt of the spec-worded greedy pattern at the current position. -/
def matchCodeAtGreedy (l : List Char) : Option (List Char × List Char × List Char) :=
  if startsWithFence l then
    let after := l.drop 3
    let lang := after.takeWhile isWordChar
    match after.dropWhile isWordChar with
    | '\n' :: body0 =>
      match findGreedyClose body0 with
      | some (body, rest) => some (lang, body, rest)
      | none => none
    | _ => none
  else none

/-- Iterated matching of the spec-worded greedy pattern. -/
def findCodeMatchesGreedyAux : Nat → List Char → List Char → List CodeMatch
  | 0, _, _ => []
  | _ + 1, _, [] => []
  | fuel + 1, pre, c :: cs =>
    match matchCodeAtGreedy (c :: cs) with
    | some (lang, body, rest) =>
      let consumed := (c :: cs).take ((c :: cs).length - rest.length)
      { before := pre, lang := lang, body := body, after := rest }
        :: findCodeMatchesGreedyAux fuel (pre ++ consumed) rest
    | none => findCodeMatchesGreedyAux fuel (pre ++ [c]) cs

/-- Code-block extraction as the spec words it, with the greedily matched
body; everything else is as in the code. -/
def extractCodeBlocksGreedy (content : List Char) : List CodeBlock :=
  (findCodeMatchesGreedyAux content.length [] content).map fun m =>
    mkCodeBlock
      (if m.lang.isEmpty then "text".toList else m.lang)
      (pyStrip m.body)
      (getContext m.before 2)
      (getContext m.after 2)

mutual

/-- No section-scoped code blocks or images anywhere in a section tree;
`sectionsNoAttachments` is the pointwise version for subsection lists. -/
def Section.noAttachments : Section → Bool
  | .mk _ _ _ subs cbs imgs =>
    cbs.isEmpty && imgs.isEmpty && sectionsNoAttachments subs

def sectionsNoAttachments : List Section → Bool
  | [] => true
  | s :: rest => s.noAttachments && sectionsNoAttachments rest

end

theorem sectionsNoAttachments_append (l1 l2 : List Section) :
    sectionsNoAttachments (l1 ++ l2)
      = (sectionsNoAttachments l1 && sectionsNoAttachments l2) := by
  induction l1 with
  | nil => simp [sectionsNoAttachments]
  | cons s rest ih => simp [sectionsNoAttachments, ih, Bool.and_assoc]

theorem noAttachments_mk (h : List Char) (lv : Nat) :
    (Section.mk h lv [] [] [] []).noAttachments = true := rfl

theorem noAttachments_addContentLine (s : Section) (line : List Char)
    (hs : s.noAttachments = true) : (s.addContentLine line).noAttachments = true := by
  cases s with
  | mk h lv c subs cbs imgs => exact hs

theorem noAttachments_addSubsection (s sub : Section)
    (hs : s.noAttachments = true) (hsub : sub.noAttachments = true) :
    (s.addSubsection sub).noAttachments = true := by
  cases s with
  | mk h lv c subs cbs imgs =>
    have h1 : (cbs.isEmpty && imgs.isEmpty && sectionsNoAttachments subs) = true := hs
    show (cbs.isEmpty && imgs.isEmpty && sectionsNoAttachments (subs ++ [sub])) = true
    rw [sectionsNoAttachments_append]
    simp only [Bool.and_eq_true] at h1 ⊢
    refine ⟨h1.1, h1.2, ?_⟩
    show (sub.noAttachments && sectionsNoAttachments []) = true
    simp [hsub, sectionsNoAttachments]

theorem level_addContentLine (s : Section) (line : List Char) :
    (s.addContentLine line).level = s.level := by
  cases s; rfl

theorem level_addSubsection (s sub : Section) :
    (s.addSubsection sub).level = s.level := by
  cases s; rfl

/-- Unfolding equation of the line loop for a nonempty line list. -/
theorem extractSectionsAux_cons (line : List Char) (rest : List (List Char))
    (sections : List Section) (cur : Option Section) :
    extractSectionsAux (line :: rest) sections cur =
      match headingMatch line with
      | some (level, heading) =>
        if level = 2 then
          extractSectionsAux rest (closeSection sections cur)
            (some (Section.mk heading level [] [] [] []))
        else if level = 3 then
          match cur with
          | some s =>
            extractSectionsAux rest sections
              (some (s.addSubsection (Section.mk heading level [] [] [] [])))
          | none => extractSectionsAux rest sections none
        else extractSectionsAux rest sections cur
      | none =>
        match cur with
        | some s => extractSectionsAux rest sections (some (s.addContentLine line))
        | none => extractSectionsAux rest sections cur := rfl

/-- State invariant of the line loop of `_extract_sections`: a property that
holds of every freshly opened level-2 section and survives appending content
lines and freshly built subsections holds of every section the loop
returns. -/
theorem extractSectionsAux_inv (P : Section → Prop)
    (hline : ∀ s line, P s → P (s.addContentLine line))
    (hsub : ∀ s hd lv, P s → P (s.addSubsection (Section.mk hd lv [] [] [] [])))
    (hnew : ∀ hd lv, lv = 2 → P (Section.mk hd lv [] [] [] [])) :
    ∀ (lines : List (List Char)) (sections : List Section) (cur : Option Section),
      (∀ s ∈ sections, P s) → (∀ s, cur = some s → P s) →
      ∀ s ∈ extractSectionsAux lines sections cur, P s := by
  intro lines
  induction lines with
  | nil =>
    intro sections cur hs hc s hmem
    cases cur with
    | none => exact hs s hmem
    | some t =>
      rcases List.mem_append.mp hmem with h | h
      · exact hs s h
      · rcases List.mem_singleton.mp h with rfl
        exact hc s rfl
  | cons line rest ih =>
    intro sections cur hs hc
    rw [extractSectionsAux_cons]
    have hclose : ∀ s ∈ closeSection sections cur, P s := by
      intro s hsmem
      cases cur with
      | none => exact hs s hsmem
      | some t =>
        rcases List.mem_append.mp hsmem with h | h
        · exact hs s h
        · rcases List.mem_singleton.mp h with rfl
          exact hc s rfl
    cases hm : headingMatch line with
    | none =>
      cases cur with
      | some t =>
        exact ih sections _ hs
          (fun s hsome => by
            injection hsome with h
            exact h ▸ hline t line (hc t rfl))
      | none => exact ih sections none hs hc
    | some p =>
      obtain ⟨lvl, hd⟩ := p
      by_cases h2 : lvl = 2
      · subst h2
        simp only [if_pos rfl]
        refine ih _ _ hclose ?_
        intro s hsome
        injection hsome with h
        exact h ▸ hnew hd 2 rfl
      · simp only [if_neg h2]
        by_cases h3 : lvl = 3
        · subst h3
          simp only [if_pos rfl]
          cases cur with
          | some t =>
            refine ih sections _ hs ?_
            intro s hsome
            injection hsome with h
            exact h ▸ hsub t hd 3 (hc t rfl)
          | none => exact ih sections none hs hc
        · simp only [if_neg h3]
          exact ih sections cur hs hc

/-- Every section the walk yields carries no section-scoped code blocks or
images, in the whole tree. -/
theorem extractSections_noAttachments (content : List Char) :
    ∀ s ∈ extractSections content, s.noAttachments = true := by
  refine extractSectionsAux_inv (fun s => s.noAttachments = true)
    (fun s line h => noAttachments_addContentLine s line h)
    (fun s hd lv h => noAttachments_addSubsection s _ h (noAttachments_mk hd lv))
    (fun hd lv _ => noAttachments_mk hd lv)
    (splitLines content) [] none (by simp) (by simp)

/-- Every top-level section the walk yields has level 2. -/
theorem extractSections_level2 (content : List Char) :
    ∀ s ∈ extractSections content, s.level = 2 := by
  refine extractSectionsAux_inv (fun s => s.level = 2)
    (fun s line h => by dsimp only; rw [level_addContentLine]; exact h)
    (fun s hd lv h => by dsimp only; rw [level_addSubsection]; exact h)
    (fun hd lv h2 => h2)
    (splitLines content) [] none (by simp) (by simp)

/-- Piece count of the single-character split: one more than the number of
separator occurrences. -/
theorem splitOnCharAux_length (sep : Char) (l : List Char) :
    ∀ acc, (splitOnCharAux sep l acc).length = l.count sep + 1 := by
  induction l with
  | nil => intro acc; simp [splitOnCharAux]
  | cons c cs ih =>
    intro acc
    by_cases h : c = sep
    · simp [splitOnCharAux, h, List.count_cons, ih]
    · simp [splitOnCharAux, h, List.count_cons, ih]

theorem splitLines_length (l : List Char) :
    (splitLines l).length = l.count '\n' + 1 :=
  splitOnCharAux_length '\n' l []

/-- A section with no attachments that survives the level filter contributes
exactly its content slide to the plan. -/
theorem sectionSlides_of_noAttachments (s : Section) (h : s.noAttachments = true) :
    ∀ sl ∈ sectionSlides s, sl.type = "content".toList := by
  cases s with
  | mk hd lv c subs cbs imgs =>
    have h1 : (cbs.isEmpty && imgs.isEmpty && sectionsNoAttachments subs) = true := h
    simp only [Bool.and_eq_true] at h1
    have hcbs : cbs = [] := List.isEmpty_iff.mp h1.1.1
    have himgs : imgs = [] := List.isEmpty_iff.mp h1.1.2
    subst hcbs; subst himgs
    intro sl hmem
    unfold sectionSlides at hmem
    by_cases hlv : Section.level (Section.mk hd lv c subs [] []) ≠ 2
    · rw [if_pos hlv] at hmem
      exact absurd hmem (List.not_mem_nil sl)
    · rw [if_neg hlv] at hmem
      simp only [Section.code_blocks, Section.images, List.map_nil, List.nil_append,
        List.mem_cons, List.not_mem_nil, or_false] at hmem
      rw [hmem]

/-- Last element of the plan list shape used by the planner. -/
theorem getLast?_cons_append_singleton {α : Type} (x y : α) (l : List α) :
    (x :: (l ++ [y])).getLast? = some y := by
  rw [← List.cons_append]
  exact List.getLast?_concat _

/-- Input whose sentences hold 101 words: a 99-word sentence, then a 2-word
sentence, so the second sentence overflows the 100-word cap. -/
def overCapText : List Char :=
  List.intercalate [' '] (List.replicate 99 ['w']) ++ ". x y".toList

set_option maxRecDepth 8000

/-- C1: at a 101-word input the condensation helper stops before the
overflowing second sentence, as claimed, but appends no ellipsis: the guard
comparing the accumulated word count against the cap can never hold after
the greedy loop, so the claimed trailing dots are absent and the result is
just the included sentence and its period. -/
theorem c1_truncation_appends_no_ellipsis :
    ((splitSentences overCapText).map (fun s => (pySplitWhitespace s).length)).sum = 101
    ∧ condenseText overCapText 100
        = List.intercalate [' '] (List.replicate 99 ['w']) ++ ['.'] := by
  constructor
  · decide
  · decide

/-- Input with a depth-1 heading line between a level-2 heading and a body
line. -/
def h1InsideSample : List Char := "## A\n# B\nbody".toList

/-- C2 counterexample: the line of one hash is a heading of depth 1 while the
level-2 section is open, yet the open section's body is just the plain line
plus a newline — the heading line was not appended to it, contradicting the
claim that such lines become ordinary body text. -/
theorem c2_counterexample :
    headingMatch "# B".toList = some (1, "B".toList)
    ∧ (extractSections h1InsideSample).map Section.heading = ["A".toList]
    ∧ (extractSections h1InsideSample).map Section.content = ["body\n".toList] := by
  refine ⟨by decide, by decide, by decide⟩

/-- C2 amended: a heading line whose depth is neither 2 nor 3 is dropped by
the section walk whatever the current state — it is not structural and is
not appended to the open section's body either. -/
theorem c2_nonstructural_heading_dropped (line : List Char) (lines : List (List Char))
    (sections : List Section) (cur : Option Section) (lvl : Nat) (hd : List Char)
    (hm : headingMatch line = some (lvl, hd)) (h2 : lvl ≠ 2) (h3 : lvl ≠ 3) :
    extractSectionsAux (line :: lines) sections cur
      = extractSectionsAux lines sections cur := by
  rw [extractSectionsAux_cons, hm]
  simp only [if_neg h2, if_neg h3]

theorem c2_nonstructural_heading_dropped_witness :
    extractSectionsAux ("# B".toList :: ["body".toList]) []
        (some (Section.mk "A".toList 2 [] [] [] []))
      = extractSectionsAux ["body".toList] []
        (some (Section.mk "A".toList 2 [] [] [] [])) :=
  c2_nonstructural_heading_dropped _ _ _ _ 1 "B".toList (by decide) (by decide) (by decide)

/-- Input holding two separate fenced code blocks. -/
def twoBlocksSample : List Char := "```a\nx\n```\n```b\ny\n```".toList

/-- C3 counterexample: on two separate fenced blocks the code's non-greedy
pattern yields two records with bodies "x" and "y", while the greedy reading
stated by the claim yields a single record swallowing the inner fences, so
greedy matching does not determine what the code extracts. -/
theorem c3_counterexample :
    (extractCodeBlocks twoBlocksSample).map CodeBlock.code = ["x".toList, "y".toList]
    ∧ (extractCodeBlocksGreedy twoBlocksSample).map CodeBlock.code
        = ["x\n```\n```b\ny".toList]
    ∧ extractCodeBlocks twoBlocksSample ≠ extractCodeBlocksGreedy twoBlocksSample := by
  refine ⟨by decide, by decide, by decide⟩

/-- C3 amended: the body is matched lazily (non-greedily) across lines, so an
input with two separate fenced blocks yields two CodeBlock records, each
holding its own language tag and its own trimmed body. -/
theorem c3_lazy_body_two_records :
    (extractCodeBlocks twoBlocksSample).map (fun b => (b.language, b.code))
      = [("a".toList, "x".toList), ("b".toList, "y".toList)] := by
  decide

/-- Parsed document with exactly two level-2 headings and no code blocks or
images. -/
def twoH2Sample : List Char := "## One\ntext\n## Two\nmore".toList

/-- C6: the estimate is one title slide, two per level-2 section, one per
document-flat code block, one per document-flat image, and one conclusion
slide; on the two-section sample it is 6. -/
theorem c6_estimated_slide_count :
    (∀ a : ArticleStructure,
      getEstimatedSlideCount a
        = 1 + 2 * (a.sections.filter (fun s => s.level == 2)).length
          + a.code_blocks.length + a.images.length + 1)
    ∧ getEstimatedSlideCount (parseContent twoH2Sample) = 6 := by
  constructor
  · intro a
    dsimp only [getEstimatedSlideCount]
    omega
  · decide

/-- C7: every slide plan is nonempty, starts with the title slide and ends
with the conclusion slide. -/
theorem c7_plan_endpoints (a : ArticleStructure) :
    createSlidePlan a ≠ []
    ∧ (createSlidePlan a).head?.map Slide.type = some "title".toList
    ∧ (createSlidePlan a).getLast?.map Slide.type = some "conclusion".toList := by
  refine ⟨by simp [createSlidePlan], rfl, ?_⟩
  rw [createSlidePlan, getLast?_cons_append_singleton]
  rfl

/-- C4: every section a parse produces carries empty section-scoped
code-block and image collections throughout its tree, and consequently the
slide plan of a parsed document contains no slide of type code and none of
type visual. -/
theorem c4_sections_unpopulated_no_code_visual_slides (content : List Char) :
    (parseContent content).sections.all Section.noAttachments = true
    ∧ (createSlidePlan (parseContent content)).all
        (fun sl => !(sl.type == "code".toList) && !(sl.type == "visual".toList)) = true := by
  have hsec : ∀ s ∈ (parseContent content).sections, s.noAttachments = true := by
    intro s hs
    exact extractSections_noAttachments _ s hs
  refine ⟨List.all_eq_true.mpr hsec, List.all_eq_true.mpr ?_⟩
  intro sl hmem
  rw [createSlidePlan] at hmem
  rcases List.mem_cons.mp hmem with rfl | hmem
  · rfl
  · rcases List.mem_append.mp hmem with hmem | hmem
    · rcases List.mem_flatten.mp hmem with ⟨slides, hslides, hsl⟩
      rcases List.mem_map.mp hslides with ⟨s, hs, rfl⟩
      have := sectionSlides_of_noAttachments s (hsec s hs) sl hsl
      rw [Bool.and_eq_true, this]
      exact ⟨by decide, by decide⟩
    · rcases List.mem_singleton.mp hmem with rfl
      rfl

/-- Whether a line is a structural level-2 heading for the section walk. -/
def isH2Line (line : List Char) : Bool :=
  match headingMatch line with
  | some (2, _) => true
  | _ => false

/-- C9: lines before the first level-2 heading — level-3 heading lines
included — contribute nothing to the section walk: the walk over them keeps
the empty state, so the resulting tree equals the tree of the remaining
lines, and in particular an early level-3 heading is neither attached as a
subsection nor present as a top-level section. -/
theorem c9_lines_before_first_h2_excluded (pre post : List (List Char))
    (h : pre.all (fun line => !isH2Line line) = true) :
    extractSectionsAux (pre ++ post) [] none = extractSectionsAux post [] none := by
  induction pre with
  | nil => rfl
  | cons line rest ih =>
    rw [List.all_cons, Bool.and_eq_true] at h
    have hline : isH2Line line = false := by
      cases hv : isH2Line line
      · rfl
      · rw [hv] at h
        exact absurd h.1 (by decide)
    rw [List.cons_append, extractSectionsAux_cons]
    cases hm : headingMatch line with
    | none => exact ih h.2
    | some p =>
      obtain ⟨lvl, hd⟩ := p
      have h2 : lvl ≠ 2 := by
        intro e
        subst e
        have : isH2Line line = true := by
          unfold isH2Line
          rw [hm]
        rw [this] at hline
        exact absurd hline (by decide)
      simp only [if_neg h2]
      by_cases h3 : lvl = 3
      · subst h3
        simp only [if_pos rfl]
        exact ih h.2
      · simp only [if_neg h3]
        exact ih h.2

theorem c9_lines_before_first_h2_excluded_witness :
    extractSectionsAux
        (["### Sub".toList, "intro".toList] ++ ["## Main".toList, "body".toList]) [] none
      = extractSectionsAux ["## Main".toList, "body".toList] [] none :=
  c9_lines_before_first_h2_excluded _ _ (by decide)

/-- C10: the derived line count of every constructed code block is the number
of newline-separated pieces of the trimmed code, which is its newline count
plus one and hence at least 1; the empty fenced body yields line count 1. -/
theorem c10_line_count_at_least_one :
    (∀ language code ctxb ctxa,
      (mkCodeBlock language code ctxb ctxa).line_count
        = (pyStrip code).count '\n' + 1
      ∧ 1 ≤ (mkCodeBlock language code ctxb ctxa).line_count)
    ∧ (∀ content, ∀ b ∈ extractCodeBlocks content,
        b.line_count = (pyStrip b.code).count '\n' + 1 ∧ 1 ≤ b.line_count)
    ∧ (extractCodeBlocks "```\n```".toList).map CodeBlock.line_count = [1] := by
  have hmk : ∀ (language code ctxb ctxa : List Char),
      (mkCodeBlock language code ctxb ctxa).line_count = (pyStrip code).count '\n' + 1 := by
    intro language code ctxb ctxa
    show (splitLines (pyStrip code)).length = _
    exact splitLines_length _
  refine ⟨fun l c b a => ⟨hmk l c b a, by rw [hmk]; omega⟩, ?_, by decide⟩
  intro content b hb
  rcases List.mem_map.mp hb with ⟨m, hm, rfl⟩
  exact ⟨hmk _ _ _ _, by rw [hmk]; omega⟩

theorem c10_line_count_at_least_one_witness :
    (mkCodeBlock "text".toList "q".toList [] []).line_count
      = (pyStrip (mkCodeBlock "text".toList "q".toList [] []).code).count '\n' + 1
    ∧ 1 ≤ (mkCodeBlock "text".toList "q".toList [] []).line_count :=
  c10_line_count_at_least_one.2.1 "```\nq\n```".toList
    (mkCodeBlock "text".toList "q".toList [] []) (by decide)

/-- Defaults of a parse, stated once: the four metadata projections are
read off the frontmatter mapping. -/
theorem parseContent_title (content : List Char) :
    (parseContent content).title
      = metaGetStr (extractFrontmatter content) "title".toList "Untitled".toList := rfl

theorem parseContent_author (content : List Char) :
    (parseContent content).author
      = metaGetStr (extractFrontmatter content) "author".toList "Unknown".toList := rfl

theorem parseContent_date (content : List Char) :
    (parseContent content).date
      = metaGetStr (extractFrontmatter content) "date".toList [] := rfl

theorem parseContent_tags (content : List Char) :
    (parseContent content).tags = metaGetTags (extractFrontmatter content) := rfl

/-- C8: without a frontmatter match, and likewise when the modelled loader
rejects the matched block, parsing still returns and the metadata falls back
to the stated defaults; a well-formed block carrying title T yields exactly
that title. -/
theorem c8_metadata_defaults :
    (∀ content : List Char, frontmatterSearch content = none →
      (parseContent content).title = "Untitled".toList
      ∧ (parseContent content).author = "Unknown".toList
      ∧ (parseContent content).date = []
      ∧ (parseContent content).tags = [])
    ∧ (∀ content body after, frontmatterSearch content = some (body, after) →
        yamlFailed (yamlSafeLoad body) = true →
        (parseContent content).title = "Untitled".toList
        ∧ (parseContent content).author = "Unknown".toList
        ∧ (parseContent content).date = []
        ∧ (parseContent content).tags = [])
    ∧ (parseContent "---\ntitle: T\n---\n## A\nbody".toList).title = "T".toList := by
  refine ⟨?_, ?_, by decide⟩
  · intro content h
    have hfm : extractFrontmatter content = [] := by
      unfold extractFrontmatter
      rw [h]
    rw [parseContent_title, parseContent_author, parseContent_date, parseContent_tags, hfm]
    exact ⟨rfl, rfl, rfl, rfl⟩
  · intro content body after h hy
    have hfm : extractFrontmatter content = [] := by
      cases he : yamlSafeLoad body with
      | error e => simp only [extractFrontmatter, h, he]
      | ok fm =>
        rw [he] at hy
        exact absurd hy (by simp [yamlFailed])
    rw [parseContent_title, parseContent_author, parseContent_date, parseContent_tags, hfm]
    exact ⟨rfl, rfl, rfl, rfl⟩

theorem c8_metadata_defaults_witness :
    ((parseContent "# Hello\nworld".toList).title = "Untitled".toList
      ∧ (parseContent "# Hello\nworld".toList).author = "Unknown".toList
      ∧ (parseContent "# Hello\nworld".toList).date = []
      ∧ (parseContent "# Hello\nworld".toList).tags = [])
    ∧ ((parseContent "---\nbadline\n---\nrest".toList).title = "Untitled".toList
      ∧ (parseContent "---\nbadline\n---\nrest".toList).author = "Unknown".toList
      ∧ (parseContent "---\nbadline\n---\nrest".toList).date = []
      ∧ (parseContent "---\nbadline\n---\nrest".toList).tags = []) :=
  ⟨c8_metadata_defaults.1 _ (by decide),
   c8_metadata_defaults.2.1 _ "badline".toList "\nrest".toList (by decide) (by decide)⟩

/-- On a list of level-2 sections, searching for the first level-2 section
finds the head. -/
theorem find?_level2_eq_head? (l : List Section) (h : ∀ s ∈ l, s.level = 2) :
    l.find? (fun s => s.level == 2) = l.head? := by
  cases l with
  | nil => rfl
  | cons s t =>
    have hs : (s.level == 2) = true := by
      simp [h s (List.mem_cons_self s t)]
    simp [List.find?_cons, hs]

/-- Conclusion body as the claim words it: the content of the first section
whose heading contains the case-insensitive substring "conclusion", or empty
text when no such section exists. -/
def claimConclusionBody (a : ArticleStructure) : List Char :=
  match a.sections.find? (fun s => containsSub "conclusion".toList (pyLower s.heading)) with
  | some s => s.content
  | none => []

/-- Takeaways as the claim words them: up to five bullets of the conclusion
body; when that search fails or yields no bullet, up to five bullets of the
first level-2 section, or of empty text when there are no sections. -/
def claimTakeaways (a : ArticleStructure) : List (List Char) :=
  let tk := extractBulletPoints (claimConclusionBody a) 5
  if tk.isEmpty then
    extractBulletPoints
      (match a.sections.find? (fun s => s.level == 2) with
       | some s => s.content
       | none => []) 5
  else tk

theorem extractConclusion_notes (a : ArticleStructure) :
    (extractConclusion a).notes = (claimConclusionBody a).take 500 := rfl

theorem extractConclusion_cta (a : ArticleStructure) :
    (extractConclusion a).cta = "Check out the full article and code examples".toList := rfl

/-- On a document whose sections all have level 2 — as parsing guarantees —
the code's positional fallback to the head section agrees with the claim's
fallback to the first level-2 section. -/
theorem extractConclusion_takeaways (a : ArticleStructure)
    (hlv : ∀ s ∈ a.sections, s.level = 2) :
    (extractConclusion a).takeaways = claimTakeaways a := by
  show (let tk := extractBulletPoints (claimConclusionBody a) 5;
        if tk.isEmpty then
          extractBulletPoints
            (match a.sections with
             | s :: _ => s.content
             | [] => []) 5
        else tk)
      = claimTakeaways a
  unfold claimTakeaways
  rw [find?_level2_eq_head? a.sections hlv]
  cases hseq : a.sections with
  | nil => rfl
  | cons s t => rfl

/-- C5: the conclusion slide of every parsed document closes the plan with
the fixed call to action, takeaways located by the case-insensitive
"conclusion" heading search with fallback to the first level-2 section, and
notes given by the first 500 characters of the conclusion body. -/
theorem c5_conclusion_slide (content : List Char) :
    (createSlidePlan (parseContent content)).getLast? = some
      { type := "conclusion".toList,
        payload := .conclusion "Key Takeaways".toList
          (claimTakeaways (parseContent content))
          "Check out the full article and code examples".toList,
        speaker_notes := (claimConclusionBody (parseContent content)).take 500 } := by
  have hlv : ∀ s ∈ (parseContent content).sections, s.level = 2 := by
    intro s hs
    exact extractSections_level2 _ s hs
  rw [createSlidePlan, getLast?_cons_append_singleton]
  have hc : conclusionSlide (parseContent content)
      = { type := "conclusion".toList,
          payload := .conclusion "Key Takeaways".toList
            (extractConclusion (parseContent content)).takeaways
            (extractConclusion (parseContent content)).cta,
          speaker_notes := (extractConclusion (parseContent content)).notes } := rfl
  rw [hc, extractConclusion_takeaways _ hlv, extractConclusion_cta, extractConclusion_notes]

end ArticleParser
